import Mathlib

/-!
Verification of the retail-analytics copilot agent.

This file gives a shallow embedding, in Lean 4, of the pure text-processing
and control-flow core of the agent:

* `src/agent/graph_hybrid.py` — router normalization (`router_node`), the SQL
  post-processing pipeline (`sql_gen_node`), the executor node
  (`sql_exec_node`), the repair-loop policy (`check_sql_status`), and the
  synthesizer's citation building and error recovery (`synthesizer_node`);
* `src/agent/tools/sqlite_tool.py` — `execute_query`;
* `src/agent/rag/retrieval.py` — `LocalRetriever._load_and_index` and
  `LocalRetriever.search`.

Python strings are embedded as `List Char`.  Python's `str.replace` (which
replaces all non-overlapping occurrences, scanning left to right) is embedded
as `replFuel`, a fuel-indexed structural recursion so that concrete instances
evaluate by `decide`.  External collaborators (the dspy text generator, the
BM25 library, `json.loads`, the sqlite engine) are opaque parameters, exactly
as the spec treats them.  Numeric relevance scores are modelled over `ℚ`
(the claims about them are order-theoretic, not about float rounding).
-/

namespace RetailAgent

/-- Text is modelled as a list of characters (a Python `str`). -/
abbrev Txt : Type := List Char

/-! ### Python `str.replace`, `str.strip`, `str.lower`, `str.split` -/

/-- Fuel-indexed worker for Python's `str.replace(p, r)`: scan left to right,
replacing each non-overlapping occurrence of `p` by `r`.  The fuel is an upper
bound on the number of scanning steps; `pyReplace` instantiates it with the
length of the subject string, which always suffices. -/
def replFuel (p r : Txt) : Nat → Txt → Txt
  | _, [] => []
  | 0, s => s
  | n + 1, c :: cs =>
    if p ≠ [] ∧ p <+: (c :: cs) then r ++ replFuel p r n ((c :: cs).drop p.length)
    else c :: replFuel p r n cs

/-- Python `s.replace(p, r)`. -/
def pyReplace (p r s : Txt) : Txt := replFuel p r s.length s

/-- Whitespace characters stripped by Python's `str.strip()` (the ASCII ones;
the sources never produce the exotic Unicode spaces). -/
def isPySpace (c : Char) : Bool :=
  c = ' ' || c = '\t' || c = '\n' || c = '\r' || c = '\x0b' || c = '\x0c'

/-- Python `s.strip()`: drop leading and trailing whitespace. -/
def pyStrip (s : Txt) : Txt :=
  ((s.dropWhile isPySpace).reverse.dropWhile isPySpace).reverse

/-- Python `s.lower()` (character-wise lowercasing). -/
def pyLower (s : Txt) : Txt := s.map Char.toLower

/-- Worker for Python `s.split()` (split on whitespace runs, no empty words);
`acc` holds the current word reversed. -/
def splitWSAux : Txt → Txt → List Txt
  | acc, [] => if acc = [] then [] else [acc.reverse]
  | acc, c :: cs =>
    if isPySpace c then
      if acc = [] then splitWSAux [] cs else acc.reverse :: splitWSAux [] cs
    else splitWSAux (c :: acc) cs

/-- Python `s.split()` with no separator argument. -/
def pySplit (s : Txt) : List Txt := splitWSAux [] s

/-! ### `HybridAgent.router_node` (graph_hybrid.py lines 49-56)

`cls = result.classification.lower().strip()`; if `cls` is not one of
`'sql'`, `'rag'`, `'hybrid'` it is coerced to `'hybrid'`. -/

/-- The deterministic normalization performed by `router_node` on the raw
classification text produced by the generator. -/
def router_node (classification : Txt) : Txt :=
  let cls := pyStrip (pyLower classification)
  if cls = "sql".data ∨ cls = "rag".data ∨ cls = "hybrid".data then cls
  else "hybrid".data

/-! ### `SQLiteTool.execute_query` (sqlite_tool.py lines 100-119)

The sqlite engine (`pandas.read_sql_query` over the sqlite3 connection) is an
opaque parameter: it either produces a data frame, embedded as its list of
record rows, or raises, embedded as `Except.error` with the stringified
exception.  The wrapper catches every failure. -/

/-- A result row: a record mapping column names to (stringly modelled)
scalar values, as produced by `df.to_dict(orient='records')`. -/
abbrev Row : Type := List (String × String)

/-- Embedding of `SQLiteTool.execute_query`: `engine` is the outcome of
`pd.read_sql_query`.  An empty frame returns `([], None)`; a non-empty frame
returns its records with a `None` error; an engine exception `e` is caught and
returned as `([], str(e))`. -/
def execute_query (engine : Except String (List Row)) : List Row × Option String :=
  match engine with
  | .ok rows => if rows.isEmpty then ([], none) else (rows, none)
  | .error e => ([], some e)

/-! ### `HybridAgent.sql_exec_node` and `check_sql_status`
(graph_hybrid.py lines 104-112 and 187-193) -/

/-- The run-state fields touched by the repair loop, plus two instrumentation
counters (`genCount`, `execCount`) counting how many times the generator node
and the executor node have run in this graph invocation. -/
structure LoopSt where
  sql_query : Txt
  sql_error : Option String
  sql_result : List Row
  retries : Nat
  genCount : Nat
  execCount : Nat
  deriving Repr

/-- Python truthiness of the `sql_error` field: `None` and `""` are falsy
(`if error:` in the source). -/
def truthyErr : Option String → Bool
  | none => false
  | some e => !(e = "")

/-- Embedding of `sql_exec_node`, given the outcome `res` of
`self.sqlite.execute_query(state["sql_query"])`.  On a truthy error it stores
the error, resets `sql_result` to `[]` and increments `retries`; otherwise it
stores the rows and clears the error. -/
def sql_exec_node (res : List Row × Option String) (st : LoopSt) : LoopSt :=
  if truthyErr res.2 then
    { st with sql_error := res.2, sql_result := [], retries := st.retries + 1,
              execCount := st.execCount + 1 }
  else
    { st with sql_result := res.1, sql_error := none,
              execCount := st.execCount + 1 }

/-- Embedding of `check_sql_status`: retry only when the error is truthy and
`retries < 2`. -/
def check_sql_status (st : LoopSt) : String :=
  if truthyErr st.sql_error ∧ st.retries < 2 then "retry" else "done"

/-- The conditional-edge table attached to `sql_exec`
(`{"retry": "sql_gen", "done": "synthesizer"}`). -/
def sql_exec_edge (route : String) : Option String :=
  if route = "retry" then some "sql_gen"
  else if route = "done" then some "synthesizer" else none

/-! ### `HybridAgent.sql_gen_node` post-processing (graph_hybrid.py lines 88-99)

The generator's raw output is cleaned by the literal chain
`.replace("```sql", "").replace("```", "").strip()` followed by the heuristic
repairs, in source order. -/

/-- Embedding of the deterministic post-processing in `sql_gen_node`, one
`pyReplace`/`pyStrip` per source line, innermost first. -/
def cleanSqlQuery (s : Txt) : Txt :=
  pyReplace "Categories".data "categories".data
    (pyReplace "Products".data "products".data
      (pyReplace "Orders".data "orders".data
        (pyReplace "\"Order Details\"".data "order_details".data
          (pyReplace "OrderDetails".data "order_details".data
            (pyReplace "BETWE0N".data "BETWEEN".data
              (pyStrip
                (pyReplace "```".data []
                  (pyReplace "```sql".data [] s))))))))

/-- The code-fence stripping stage of `sql_gen_node`
(`.replace("```sql", "").replace("```", "")`). -/
def stripCodeFences (s : Txt) : Txt :=
  pyReplace "```".data [] (pyReplace "```sql".data [] s)

/-- The fixed table of textual repairs of `sql_gen_node`, in source order:
one keyword-misspelling fix and four logical-to-physical table aliasings. -/
def repairTable : List (Txt × Txt) :=
  [("BETWE0N".data, "BETWEEN".data),
   ("OrderDetails".data, "order_details".data),
   ("\"Order Details\"".data, "order_details".data),
   ("Orders".data, "orders".data),
   ("Products".data, "products".data),
   ("Categories".data, "categories".data)]

/-- Application of the repair table as an ordered sequence of textual
substitutions. -/
def applyRepairTable (s : Txt) : Txt :=
  repairTable.foldl (fun acc pr => pyReplace pr.1 pr.2 acc) s

/-- Embedding of `sql_gen_node`: the raw generator output is post-processed by
`cleanSqlQuery` and stored in `sql_query`; the node also bumps the
instrumentation counter for generator runs. -/
def sql_gen_node (raw : Txt) (st : LoopSt) : LoopSt :=
  { st with sql_query := cleanSqlQuery raw, genCount := st.genCount + 1 }

/-! ### The repair loop (graph edges `sql_gen → sql_exec → check_sql_status`)

One iteration is `sql_gen_node` then `sql_exec_node`; the conditional edge
loops back to `sql_gen` exactly when `check_sql_status` says `"retry"`.
`gens i` is the raw generator output of attempt `i` and `outs i` the executor
outcome of attempt `i`; both are opaque streams.  The fuel `f` bounds the
number of iterations we are willing to unfold; the theorems show the loop
in fact stops after at most 2 iterations regardless of `f`. -/

/-- Worker running the repair loop from attempt index `i`. -/
def repairLoopAux (gens : Nat → Txt) (outs : Nat → List Row × Option String) :
    Nat → Nat → LoopSt → LoopSt
  | 0, _, st => st
  | f + 1, i, st =>
    let st2 := sql_exec_node (outs i) (sql_gen_node (gens i) st)
    if check_sql_status st2 = "retry" then repairLoopAux gens outs f (i + 1) st2
    else st2

/-- The repair loop as entered from the graph (first attempt has index 0). -/
def runRepairLoop (gens : Nat → Txt) (outs : Nat → List Row × Option String)
    (f : Nat) (st : LoopSt) : LoopSt :=
  repairLoopAux gens outs f 0 st

/-! ### `LocalRetriever` (retrieval.py)

A stored chunk is a record with keys `id`, `text`, `source`, `clean_name`;
`search` returns copies extended with a `score` key, embedded as an
`Option ℚ` field that is `none` on stored chunks and `some` on returned
copies.  The BM25 scoring function (`rank_bm25.BM25Okapi(...).get_scores`) is
an opaque parameter. -/

/-- A chunk record of `LocalRetriever` (retrieval.py lines 51-56), possibly
extended with the retrieval-time `score` key (line 101). -/
structure Passage where
  id : Txt
  text : Txt
  source : Txt
  clean_name : Txt
  score : Option ℚ
  deriving DecidableEq, Repr

/-- Filename boosting (retrieval.py lines 83-92): count the source-name
tokens occurring among the query tokens and, when positive, add 5.0 per
matching token to the base score. -/
def boostAdd (tq : List Txt) (score : ℚ) (ch : Passage) : ℚ :=
  let doc_name_tokens := pySplit ch.clean_name
  let matchCnt := (doc_name_tokens.filter (fun t => decide (t ∈ tq))).length
  if 0 < matchCnt then score + matchCnt * 5 else score

/-- The `boosted_scores` list of `search`: base BM25 scores of the tokenized
query, boosted chunk-wise. -/
def boostedScores (get_scores : List Txt → List ℚ) (chunks : List Passage)
    (q : Txt) : List ℚ :=
  let tq := pySplit (pyLower q)
  (get_scores tq).zipWith (fun sc ch => boostAdd tq sc ch) chunks

/-- Stable descending insertion of index `i` (strictly greater keys stay in
front; on ties the earlier-inserted, smaller index stays in front). -/
def insertDesc (key : Nat → ℚ) (i : Nat) : List Nat → List Nat
  | [] => [i]
  | j :: js => if key j < key i then i :: j :: js else j :: insertDesc key i js

/-- Embedding of `sorted(range(n), key=..., reverse=True)`: Python's sort is
stable, so it coincides with stable descending insertion in index order. -/
def sortIdxDesc (key : Nat → ℚ) (n : Nat) : List Nat :=
  (List.range n).foldl (fun acc i => insertDesc key i acc) []

/-- The `top_n` index list of `search` (retrieval.py line 95). -/
def topIdx (get_scores : List Txt → List ℚ) (chunks : List Passage)
    (q : Txt) (k : Nat) : List Nat :=
  let b := boostedScores get_scores chunks q
  (sortIdxDesc (fun i => b.getD i 0) b.length).take k

/-- Strict descending-score order on indices with the original index as the
secondary (ascending) tie-break. -/
def idxLexGT (key : Nat → ℚ) (i j : Nat) : Prop :=
  key j < key i ∨ (key i = key j ∧ i < j)

/-- The body of the result loop of `search` (retrieval.py lines 97-102): keep
index `i` only if its boosted score is strictly positive, returning a copy of
the stored chunk extended with the score. -/
def mkResult (b : List ℚ) (chunks : List Passage) (i : Nat) : Option Passage :=
  if 0 < b.getD i 0 then (chunks[i]?).map (fun ch => { ch with score := some (b.getD i 0) })
  else none

/-- Embedding of `LocalRetriever.search`.  `bm25` is `none` exactly when no
index was built (empty corpus), in which case the result is `[]`. -/
def search (bm25 : Option (List Txt → List ℚ)) (chunks : List Passage)
    (q : Txt) (k : Nat) : List Passage :=
  match bm25 with
  | none => []
  | some get_scores =>
    let b := boostedScores get_scores chunks q
    (topIdx get_scores chunks q k).filterMap (mkResult b chunks)

/-! ### `LocalRetriever._load_and_index` (retrieval.py lines 17-64) -/

/-- Fuel-indexed worker for Python's `str.split(sep)` with an explicit
separator (keeps empty pieces); `acc` holds the current piece reversed. -/
def splitSepFuel (sep : Txt) : Nat → Txt → Txt → List Txt
  | _, acc, [] => [acc.reverse]
  | 0, acc, s => [acc.reverse ++ s]
  | n + 1, acc, c :: cs =>
    if sep ≠ [] ∧ sep <+: (c :: cs) then
      acc.reverse :: splitSepFuel sep n [] ((c :: cs).drop sep.length)
    else splitSepFuel sep n (c :: acc) cs

/-- Python `s.split(sep)`. -/
def pySplitSep (sep s : Txt) : List Txt := splitSepFuel sep s.length [] s

/-- Chunking of one document (retrieval.py lines 36-41): split at header
boundaries when the content has a `#`, re-prefixing the split-out `#`,
else split at blank lines. -/
def chunkRaws (content : Txt) : List Txt :=
  if '#' ∈ content then
    match pySplitSep "\n#".data content with
    | [] => []
    | h :: t => h :: t.map (fun c => '#' :: c)
  else pySplitSep "\n\n".data content

/-- Decimal rendering of a chunk counter. -/
def natTxt (n : Nat) : Txt := (Nat.repr n).data

/-- One stored chunk record (retrieval.py lines 47-56). -/
def chunkRecord (filename clean_name : Txt) (idx : Nat) (raw : Txt) : Passage :=
  { id := filename ++ "::chunk".data ++ natTxt idx,
    text := "Source: ".data ++ clean_name ++ "\nContent: ".data ++ pyStrip raw,
    source := filename,
    clean_name := clean_name,
    score := none }

/-- Worker of `_load_and_index`: walk the corpus files threading the global
chunk counter, producing the stored chunks and the tokenized corpus. -/
def load_and_index_aux (files : List (Txt × Txt)) (counter : Nat) :
    List Passage × List (List Txt) :=
  match files with
  | [] => ([], [])
  | (filename, content) :: rest =>
    let clean_name := pyReplace "_".data " ".data (pyReplace ".md".data [] filename)
    let kept := (chunkRaws content).filter (fun raw => !(pyStrip raw).isEmpty)
    let records := kept.mapIdx (fun off raw => chunkRecord filename clean_name (counter + off) raw)
    let toks := records.map (fun r => pySplit (pyLower r.text))
    let rec_rest := load_and_index_aux rest (counter + kept.length)
    (records ++ rec_rest.1, toks ++ rec_rest.2)

/-- Embedding of retriever construction: load and chunk the corpus, then
build the BM25 index only when the tokenized corpus is non-empty
(retrieval.py lines 62-63).  `bm25lib` is the opaque `BM25Okapi` library. -/
def build_retriever (bm25lib : List (List Txt) → List Txt → List ℚ)
    (files : List (Txt × Txt)) : List Passage × Option (List Txt → List ℚ) :=
  let built := load_and_index_aux files 0
  (built.1, if built.2.isEmpty then none else some (bm25lib built.2))

/-! ### Heap-level model of the result loop of `search` (retrieval.py 94-104)

To state the frame/aliasing claim (`search` returns fresh copies, so mutating
a result never alters the stored chunks) we model Python object identity with
an explicit store: references are naturals, `mem` maps a reference to the
chunk record it holds, and `next` is the allocation frontier. -/

/-- A heap of chunk records. -/
structure Store where
  mem : Nat → Option Passage
  next : Nat

/-- Mutation of the record held by reference `r` (what a caller does to a
returned result). -/
def storeWrite (st : Store) (r : Nat) (v : Passage) : Store :=
  { st with mem := fun a => if a = r then some v else st.mem a }

/-- Allocation of a fresh record (what `dict.copy()` does). -/
def allocCopy (st : Store) (v : Passage) : Store × Nat :=
  ({ mem := fun a => if a = st.next then some v else st.mem a, next := st.next + 1 },
   st.next)

/-- One iteration of the result loop of `search`: on a strictly positive
boosted score, read the stored chunk through its reference, allocate a fresh
copy extended with the score, and append the fresh reference to the
results. -/
def searchAllocStep (b : List ℚ) (refs : List Nat) (acc : Store × List Nat)
    (i : Nat) : Store × List Nat :=
  if 0 < b.getD i 0 then
    match (refs[i]?).bind acc.1.mem with
    | some ch =>
      let p := allocCopy acc.1 { ch with score := some (b.getD i 0) }
      (p.1, acc.2 ++ [p.2])
    | none => acc
  else acc

/-- Heap-level embedding of the result loop of `search` over the selected
indices. -/
def searchAlloc (b : List ℚ) (top : List Nat) (refs : List Nat) (st : Store) :
    Store × List Nat :=
  top.foldl (searchAllocStep b refs) (st, [])

/-- The value-level contents of the result loop, computed from the initial
heap alone. -/
def searchData (b : List ℚ) (top : List Nat) (refs : List Nat)
    (mem : Nat → Option Passage) : List Passage :=
  top.filterMap (fun i =>
    if 0 < b.getD i 0 then
      ((refs[i]?).bind mem).map (fun ch => { ch with score := some (b.getD i 0) })
    else none)

/-! ### `HybridAgent.synthesizer_node` (graph_hybrid.py lines 114-164) -/

/-- A parsed JSON object, modelled as an association list from keys to
(opaquely textual) values. -/
abbrev JObj : Type := List (String × Txt)

/-- Output fields produced by the synthesizer node. -/
structure SynthOut where
  final_answer : Txt
  explanation : Txt
  citations : List Txt
  deriving Repr

/-- The table/view names scanned for citations (graph_hybrid.py line 156). -/
def knownTables : List Txt :=
  ["orders".data, "order_details".data, "products".data, "categories".data,
   "customers".data]

/-- Citation assembly (graph_hybrid.py lines 151-163): the id of every
retrieved chunk, plus every known table name occurring (case-insensitively)
in the non-empty final query, deduplicated (`list(set(...))`). -/
def buildCitations (rag_chunks : List Passage) (sql_q : Txt) : List Txt :=
  let ids := rag_chunks.map (fun c => c.id)
  let tabs :=
    if sql_q ≠ [] then
      knownTables.filter (fun t => decide (pyLower t <:+: pyLower sql_q))
    else []
  (ids ++ tabs).dedup

/-- First index at which `pat` occurs in the subject, if any. -/
def firstIdx (pat : Txt) : Txt → Option Nat
  | [] => if pat = [] then some 0 else none
  | c :: cs => if pat <+: (c :: cs) then some 0 else (firstIdx pat cs).map (· + 1)

/-- Last index at which character `ch` occurs, if any. -/
def lastIdxOf (ch : Char) : Txt → Option Nat
  | [] => none
  | c :: cs =>
    match lastIdxOf ch cs with
    | some j => some (j + 1)
    | none => if c = ch then some 0 else none

/-- The literal prefix required by the recovery pattern
`LM Response: ({.*})`: 13 literal characters followed by the opening brace of
the capture group. -/
def lmPattern : Txt := "LM Response: \x7b".data

/-- Embedding of `re.search(r'LM Response: ({.*})', err, re.DOTALL)`: the
capture starts at the brace following the first occurrence of the literal
text and, by greediness, extends to the last closing brace of the whole
subject; the pattern matches iff that closing brace lies strictly after the
opening one. -/
def extractLMResponse (e : Txt) : Option Txt :=
  match firstIdx lmPattern e with
  | none => none
  | some i =>
    match lastIdxOf '\x7d' e with
    | none => none
    | some j =>
      if i + 13 < j then some ((e.drop (i + 13)).take (j - (i + 13) + 1)) else none

/-- The single-character field-name typo fix
(`raw_json.replace("explanicn", "explanation")`). -/
def typoFix (raw : Txt) : Txt := pyReplace "explanicn".data "explanation".data raw

/-- Sentinel answer installed before recovery is attempted. -/
def sentinel_answer : Txt := "Error generating answer.".data

/-- Sentinel explanation installed before recovery is attempted. -/
def sentinel_explanation : Txt := "Failed to parse model output.".data

/-- The `except` branch of `synthesizer_node` (lines 131-149): regex-extract
a bracketed structure from the error text, fix the known typo, re-parse
(`jparse` is the opaque `json.loads`, `none` when it raises) and read the
fields with the sentinel defaults; any failure yields the sentinels. -/
def recoverFromError (jparse : Txt → Option JObj) (err : Txt) : Txt × Txt :=
  match extractLMResponse err with
  | none => (sentinel_answer, sentinel_explanation)
  | some raw =>
    match jparse (typoFix raw) with
    | none => (sentinel_answer, sentinel_explanation)
    | some data =>
      ((data.lookup "final_answer").getD sentinel_answer,
       (data.lookup "explanation").getD ((data.lookup "reasoning").getD sentinel_explanation))

/-- Embedding of `synthesizer_node`: `gen` is the outcome of the structured
generation call (`.error` when it raises, carrying the stringified
exception); the citation list is built afterwards in either case. -/
def synthesizer_node (gen : Except Txt (Txt × Txt)) (jparse : Txt → Option JObj)
    (rag_chunks : List Passage) (sql_q : Txt) : SynthOut :=
  let fa_ex :=
    match gen with
    | .ok pred => pred
    | .error e => recoverFromError jparse e
  { final_answer := fa_ex.1, explanation := fa_ex.2,
    citations := buildCitations rag_chunks sql_q }

/-! ### Auxiliary notions used only by the proofs -/

/-- Count of leading backticks. -/
def leadTicks : Txt → Nat
  | [] => 0
  | c :: cs => if c = '\x60' then leadTicks cs + 1 else 0

/-- The three-backtick fence delimiter. -/
def ttt : Txt := ['\x60', '\x60', '\x60']

/-- Head is not whitespace (vacuously true for the empty text). -/
def headOkB : Txt → Bool
  | [] => true
  | c :: _ => !isPySpace c

/-- Last character is not whitespace (vacuously true for the empty text). -/
def lastOkB (l : Txt) : Bool := headOkB l.reverse

/-- Compatibility conditions between an occurrence pattern `q` and a
replacement text `r` under which scanning replacement can neither create an
occurrence of `q` inside an inserted `r` nor let one straddle an insertion
boundary. -/
abbrev GoodPair (q r : Txt) : Prop :=
  q ≠ [] ∧ r ≠ [] ∧ ¬ q <:+: r ∧
  (∀ t ∈ r.tails, t ≠ [] → ¬ t <+: q) ∧
  (∀ b ∈ q.tails, b ≠ [] → b ≠ q → ¬ b <+: r ∧ ¬ r <+: b)

/-! ## Theorems -/

/-! ### Router (claim C1) -/

lemma router_node_eq (c : Txt) :
    router_node c =
      if pyStrip (pyLower c) = "sql".data ∨ pyStrip (pyLower c) = "rag".data ∨
          pyStrip (pyLower c) = "hybrid".data
      then pyStrip (pyLower c) else "hybrid".data := rfl

lemma router_node_mem (c : Txt) :
    router_node c = "sql".data ∨ router_node c = "rag".data ∨
      router_node c = "hybrid".data := by
  rw [router_node_eq]
  split
  · assumption
  · right; right; rfl

lemma router_node_ne_nil (c : Txt) : router_node c ≠ [] := by
  rcases router_node_mem c with h | h | h <;> rw [h] <;> decide

lemma router_node_coerce (c : Txt)
    (h : ¬(pyStrip (pyLower c) = "sql".data ∨ pyStrip (pyLower c) = "rag".data ∨
        pyStrip (pyLower c) = "hybrid".data)) :
    router_node c = "hybrid".data := by
  rw [router_node_eq, if_neg h]

/-- Claim C1: after the classifier step the classification is always exactly
one of `sql`, `rag`, `hybrid` (lower-cased and trimmed); it is never empty,
and any normalized generator output outside the closed set is coerced to
`hybrid`. -/
theorem claim_C1_router_closed_set :
    (∀ c : Txt, router_node c = "sql".data ∨ router_node c = "rag".data ∨
      router_node c = "hybrid".data) ∧
    (∀ c : Txt, router_node c ≠ []) ∧
    (∀ c : Txt,
      ¬(pyStrip (pyLower c) = "sql".data ∨ pyStrip (pyLower c) = "rag".data ∨
          pyStrip (pyLower c) = "hybrid".data) →
      router_node c = "hybrid".data) :=
  ⟨router_node_mem, router_node_ne_nil, router_node_coerce⟩

/-- Witness for claim C1: the unrecognized generator output `" SQLish "` is
coerced to `hybrid`. -/
theorem claim_C1_witness : router_node " SQLish ".data = "hybrid".data :=
  claim_C1_router_closed_set.2.2 " SQLish ".data (by decide)

/-! ### Executor wrapper (claims C4 and C9) -/

lemma execute_query_shape (eng : Except String (List Row)) :
    (execute_query eng).2 = none ∨
      ∃ e, (execute_query eng).2 = some e ∧ (execute_query eng).1 = [] := by
  cases eng with
  | ok rows =>
    left
    by_cases h : rows.isEmpty <;> simp [execute_query, h]
  | error e => exact Or.inr ⟨e, rfl, rfl⟩

/-- Claim C4: `execute_query` never raises: every engine failure is returned
as a pair with a non-null error string and empty rows; a succeeding query
with zero matching rows is `([], None)` — success, distinct from any failure
result. -/
theorem claim_C4_execute_query_total :
    (∀ e : String, execute_query (.error e) = ([], some e)) ∧
    (execute_query (Except.ok ([] : List Row)) = ([], none)) ∧
    (∀ e : String, execute_query (.error e) ≠ execute_query (.ok ([] : List Row))) ∧
    (∀ eng : Except String (List Row),
      (execute_query eng).2 = none ∨
        ∃ e, (execute_query eng).2 = some e ∧ (execute_query eng).1 = []) := by
  refine ⟨fun e => rfl, rfl, ?_, execute_query_shape⟩
  intro e h
  have : (some e : Option String) = none := congrArg Prod.snd h
  exact Option.some_ne_none e this

/-- Witness for claim C4: a concrete engine failure is returned, not raised,
and differs from the zero-row success result. -/
theorem claim_C4_witness :
    execute_query (.error "no such table: ordersx") ≠
      execute_query (.ok ([] : List Row)) :=
  claim_C4_execute_query_total.2.2.1 "no such table: ordersx"

lemma execute_query_error_rows (eng : Except String (List Row)) (e : String)
    (h : (execute_query eng).2 = some e) : (execute_query eng).1 = [] := by
  rcases execute_query_shape eng with h0 | ⟨e', _, h2⟩
  · rw [h0] at h; cases h
  · exact h2

lemma sql_exec_node_on_failure (eng : Except String (List Row)) (st : LoopSt)
    (h : (execute_query eng).2 ≠ none) :
    (sql_exec_node (execute_query eng) st).sql_result = [] := by
  rcases execute_query_shape eng with h0 | ⟨e, _, h2⟩
  · exact absurd h0 h
  · by_cases ht : truthyErr (execute_query eng).2 = true
    · simp [sql_exec_node, ht]
    · simp [sql_exec_node, ht, h2]

/-- Claim C9: an error result of `execute_query` always carries the empty row
list, and the executor node stores an empty `sql_result` whenever the
execution failed. -/
theorem claim_C9_error_implies_no_rows :
    (∀ (eng : Except String (List Row)) (e : String),
      (execute_query eng).2 = some e → (execute_query eng).1 = []) ∧
    (∀ (eng : Except String (List Row)) (st : LoopSt),
      (execute_query eng).2 ≠ none →
      (sql_exec_node (execute_query eng) st).sql_result = []) :=
  ⟨execute_query_error_rows, sql_exec_node_on_failure⟩

/-- Witness for claim C9 at a concrete failing query outcome. -/
theorem claim_C9_witness :
    (sql_exec_node (execute_query (.error "syntax error"))
      ⟨[], none, [], 0, 0, 0⟩).sql_result = [] :=
  claim_C9_error_implies_no_rows.2 (.error "syntax error")
    ⟨[], none, [], 0, 0, 0⟩ (by decide)

/-! ### The repair loop (claim C2) -/

lemma sql_gen_node_retries (raw : Txt) (st : LoopSt) :
    (sql_gen_node raw st).retries = st.retries := by
  simp only [sql_gen_node]

lemma sql_gen_node_execCount (raw : Txt) (st : LoopSt) :
    (sql_gen_node raw st).execCount = st.execCount := by
  simp only [sql_gen_node]

lemma sql_gen_node_genCount (raw : Txt) (st : LoopSt) :
    (sql_gen_node raw st).genCount = st.genCount + 1 := by
  simp only [sql_gen_node]

lemma sql_exec_node_retries (res : List Row × Option String) (st : LoopSt) :
    (sql_exec_node res st).retries =
      if truthyErr res.2 then st.retries + 1 else st.retries := by
  by_cases h : truthyErr res.2 <;> simp [sql_exec_node, h]

lemma sql_exec_node_execCount (res : List Row × Option String) (st : LoopSt) :
    (sql_exec_node res st).execCount = st.execCount + 1 := by
  by_cases h : truthyErr res.2 <;> simp [sql_exec_node, h]

lemma sql_exec_node_genCount (res : List Row × Option String) (st : LoopSt) :
    (sql_exec_node res st).genCount = st.genCount := by
  by_cases h : truthyErr res.2 <;> simp [sql_exec_node, h]

lemma sql_exec_node_sql_error (res : List Row × Option String) (st : LoopSt) :
    (sql_exec_node res st).sql_error =
      if truthyErr res.2 then res.2 else none := by
  by_cases h : truthyErr res.2 <;> simp [sql_exec_node, h]

lemma check_retry_iff (st : LoopSt) :
    check_sql_status st = "retry" ↔
      (truthyErr st.sql_error = true ∧ st.retries < 2) := by
  by_cases h : truthyErr st.sql_error = true ∧ st.retries < 2 <;>
    simp [check_sql_status, h]

lemma check_done_at_ceiling (st : LoopSt) (h : 2 ≤ st.retries) :
    check_sql_status st = "done" := by
  rw [check_sql_status, if_neg]
  rintro ⟨-, hlt⟩
  omega

lemma check_edge_at_ceiling (st : LoopSt) (h : 2 ≤ st.retries) :
    sql_exec_edge (check_sql_status st) = some "synthesizer" := by
  rw [check_done_at_ceiling st h]
  rfl

lemma repairLoopAux_succ (gens : Nat → Txt)
    (outs : Nat → List Row × Option String) (f i : Nat) (st : LoopSt) :
    repairLoopAux gens outs (f + 1) i st =
      if check_sql_status (sql_exec_node (outs i) (sql_gen_node (gens i) st)) = "retry"
      then repairLoopAux gens outs f (i + 1)
        (sql_exec_node (outs i) (sql_gen_node (gens i) st))
      else sql_exec_node (outs i) (sql_gen_node (gens i) st) := by
  rw [repairLoopAux]

lemma repairLoopAux_counts (gens : Nat → Txt)
    (outs : Nat → List Row × Option String) :
    ∀ (f i : Nat) (st : LoopSt),
      (repairLoopAux gens outs f i st).execCount ≤
        st.execCount + max (2 - st.retries) 1 ∧
      (repairLoopAux gens outs f i st).genCount ≤
        st.genCount + max (2 - st.retries) 1 := by
  intro f
  induction f with
  | zero =>
    intro i st
    constructor <;> exact Nat.le_add_right _ _
  | succ f ih =>
    intro i st
    rw [repairLoopAux_succ]
    set st2 := sql_exec_node (outs i) (sql_gen_node (gens i) st) with hst2
    have hexec : st2.execCount = st.execCount + 1 := by
      rw [hst2, sql_exec_node_execCount, sql_gen_node_execCount]
    have hgen : st2.genCount = st.genCount + 1 := by
      rw [hst2, sql_exec_node_genCount, sql_gen_node_genCount]
    by_cases h : check_sql_status st2 = "retry"
    · rw [if_pos h]
      have hr := (check_retry_iff st2).1 h
      have htruthy : truthyErr (outs i).2 = true := by
        by_contra hf
        have : st2.sql_error = none := by
          rw [hst2, sql_exec_node_sql_error, if_neg hf]
        rw [this] at hr
        exact absurd hr.1 (by decide)
      have hret : st2.retries = st.retries + 1 := by
        rw [hst2, sql_exec_node_retries, if_pos htruthy, sql_gen_node_retries]
      have hst0 : st.retries = 0 := by omega
      rcases ih (i + 1) st2 with ⟨he, hg⟩
      constructor
      · calc (repairLoopAux gens outs f (i + 1) st2).execCount
            ≤ st2.execCount + max (2 - st2.retries) 1 := he
          _ ≤ st.execCount + max (2 - st.retries) 1 := by
              rw [hexec, hret, hst0]; omega
      · calc (repairLoopAux gens outs f (i + 1) st2).genCount
            ≤ st2.genCount + max (2 - st2.retries) 1 := hg
          _ ≤ st.genCount + max (2 - st.retries) 1 := by
              rw [hgen, hret, hst0]; omega
    · rw [if_neg h]
      constructor
      · rw [hexec]; omega
      · rw [hgen]; omega

/-- Claim C2: the repair loop terminates — from a fresh state the generator
node and the executor node each run at most 3 times (in fact at most 2)
however much fuel the loop is given; `retries` starts at 0, is untouched by
the generator node, and is incremented by the executor node exactly when the
execution produced a truthy (non-empty) error; and once `retries` has
reached the ceiling 2 the conditional edge routes to the synthesizer
instead of retrying. -/
theorem claim_C2_repair_loop_bounded :
    (∀ (gens : Nat → Txt) (outs : Nat → List Row × Option String)
        (f : Nat) (st : LoopSt),
      st.retries = 0 → st.genCount = 0 → st.execCount = 0 →
      (runRepairLoop gens outs f st).genCount ≤ 3 ∧
        (runRepairLoop gens outs f st).execCount ≤ 3) ∧
    (∀ (raw : Txt) (st : LoopSt), (sql_gen_node raw st).retries = st.retries) ∧
    (∀ (res : List Row × Option String) (st : LoopSt),
      (sql_exec_node res st).retries =
        if truthyErr res.2 then st.retries + 1 else st.retries) ∧
    (∀ st : LoopSt, 2 ≤ st.retries →
      sql_exec_edge (check_sql_status st) = some "synthesizer") := by
  refine ⟨?_, sql_gen_node_retries, sql_exec_node_retries, check_edge_at_ceiling⟩
  intro gens outs f st h0 hg he
  rcases repairLoopAux_counts gens outs f 0 st with ⟨h1, h2⟩
  rw [h0] at h1 h2
  rw [he] at h1
  rw [hg] at h2
  exact ⟨by calc (runRepairLoop gens outs f st).genCount
              ≤ 0 + max (2 - 0) 1 := h2
            _ ≤ 3 := by omega,
         by calc (runRepairLoop gens outs f st).execCount
              ≤ 0 + max (2 - 0) 1 := h1
            _ ≤ 3 := by omega⟩

/-- Witness for claim C2: a run whose executions always fail performs at most
3 generation attempts, and a state at the retry ceiling routes to the
synthesizer. -/
theorem claim_C2_witness :
    ((runRepairLoop (fun _ => "SELECT 1".data)
        (fun _ => ([], some "no such table")) 9
        ⟨[], none, [], 0, 0, 0⟩).genCount ≤ 3) ∧
    sql_exec_edge (check_sql_status ⟨[], some "boom", [], 2, 2, 2⟩) =
      some "synthesizer" :=
  ⟨(claim_C2_repair_loop_bounded.1 _ _ 9 ⟨[], none, [], 0, 0, 0⟩ rfl rfl rfl).1,
   claim_C2_repair_loop_bounded.2.2.2 ⟨[], some "boom", [], 2, 2, 2⟩ (by decide)⟩

/-! ### Citations (claim C5) -/

lemma buildCitations_mem_id (chunks : List Passage) (q : Txt) :
    ∀ c ∈ chunks, c.id ∈ buildCitations chunks q := by
  intro c hc
  simp only [buildCitations, List.mem_dedup, List.mem_append, List.mem_map]
  exact Or.inl ⟨c, hc, rfl⟩

lemma knownTables_ne_nil : ∀ t ∈ knownTables, t ≠ [] := by decide

lemma buildCitations_mem_table (chunks : List Passage) (q : Txt) :
    ∀ t ∈ knownTables, pyLower t <:+: pyLower q → t ∈ buildCitations chunks q := by
  intro t ht hinf
  have hqne : q ≠ [] := by
    rintro rfl
    have : pyLower t = [] := List.infix_nil.1 hinf
    have : t = [] := by
      have := congrArg List.length this
      simpa [pyLower] using this
    exact knownTables_ne_nil t ht this
  simp only [buildCitations, List.mem_dedup, List.mem_append]
  refine Or.inr ?_
  rw [if_pos hqne, List.mem_filter]
  exact ⟨ht, by simpa using hinf⟩

lemma synthesizer_node_citations (gen : Except Txt (Txt × Txt))
    (jparse : Txt → Option JObj) (chunks : List Passage) (q : Txt) :
    (synthesizer_node gen jparse chunks q).citations = buildCitations chunks q := by
  cases gen <;> rfl

/-- Claim C5: at synthesis time the citation list contains the id of every
retrieved chunk and the name of every known table/view occurring
case-insensitively in the final query; and the citations are computed from
`(passages, query)` alone, identically for every generator outcome, including
parse failures. -/
theorem claim_C5_citations_complete :
    (∀ (gen : Except Txt (Txt × Txt)) (jparse : Txt → Option JObj)
        (chunks : List Passage) (q : Txt),
      ∀ c ∈ chunks, c.id ∈ (synthesizer_node gen jparse chunks q).citations) ∧
    (∀ (gen : Except Txt (Txt × Txt)) (jparse : Txt → Option JObj)
        (chunks : List Passage) (q : Txt),
      ∀ t ∈ knownTables, pyLower t <:+: pyLower q →
        t ∈ (synthesizer_node gen jparse chunks q).citations) ∧
    (∀ (gen gen' : Except Txt (Txt × Txt)) (jp jp' : Txt → Option JObj)
        (chunks : List Passage) (q : Txt),
      (synthesizer_node gen jp chunks q).citations =
        (synthesizer_node gen' jp' chunks q).citations) := by
  refine ⟨?_, ?_, ?_⟩
  · intro gen jp chunks q c hc
    rw [synthesizer_node_citations]
    exact buildCitations_mem_id chunks q c hc
  · intro gen jp chunks q t ht hinf
    rw [synthesizer_node_citations]
    exact buildCitations_mem_table chunks q t ht hinf
  · intro gen gen' jp jp' chunks q
    rw [synthesizer_node_citations, synthesizer_node_citations]

/-- Witness for claim C5: with one retrieved chunk and a query mentioning
`Orders`, the citations contain both the chunk id and the table name, even
when the generator call failed. -/
theorem claim_C5_witness :
    "kpi.md::chunk0".data ∈
      (synthesizer_node (.error "boom".data) (fun _ => none)
        [⟨"kpi.md::chunk0".data, "t".data, "kpi.md".data, "kpi".data, none⟩]
        "SELECT * FROM Orders".data).citations ∧
    "orders".data ∈
      (synthesizer_node (.error "boom".data) (fun _ => none)
        [⟨"kpi.md::chunk0".data, "t".data, "kpi.md".data, "kpi".data, none⟩]
        "SELECT * FROM Orders".data).citations :=
  ⟨claim_C5_citations_complete.1 (.error "boom".data) (fun _ => none)
    [⟨"kpi.md::chunk0".data, "t".data, "kpi.md".data, "kpi".data, none⟩]
    "SELECT * FROM Orders".data
    ⟨"kpi.md::chunk0".data, "t".data, "kpi.md".data, "kpi".data, none⟩
    (by decide),
   claim_C5_citations_complete.2.1 (.error "boom".data) (fun _ => none)
    [⟨"kpi.md::chunk0".data, "t".data, "kpi.md".data, "kpi".data, none⟩]
    "SELECT * FROM Orders".data "orders".data (by decide) (by decide)⟩

/-! ### Synthesizer error recovery (claim C8) -/

lemma recover_no_extract (jparse : Txt → Option JObj) (e : Txt)
    (h : extractLMResponse e = none) :
    recoverFromError jparse e = (sentinel_answer, sentinel_explanation) := by
  rw [recoverFromError, h]

lemma recover_no_parse (jparse : Txt → Option JObj) (e raw : Txt)
    (h1 : extractLMResponse e = some raw) (h2 : jparse (typoFix raw) = none) :
    recoverFromError jparse e = (sentinel_answer, sentinel_explanation) := by
  rw [recoverFromError, h1]
  dsimp only
  rw [h2]

lemma recover_parsed (jparse : Txt → Option JObj) (e raw : Txt) (data : JObj)
    (h1 : extractLMResponse e = some raw) (h2 : jparse (typoFix raw) = some data) :
    recoverFromError jparse e =
      ((data.lookup "final_answer").getD sentinel_answer,
       (data.lookup "explanation").getD
         ((data.lookup "reasoning").getD sentinel_explanation)) := by
  rw [recoverFromError, h1]
  dsimp only
  rw [h2]

/-- Claim C8: when the answer-generation call raises, the synthesizer step
returns the recovery result instead of propagating — the bracketed structure
is regex-extracted from the error text and re-parsed after correcting the
`explanicn` typo, and when extraction or re-parsing fails the step returns
the fixed sentinel answer/explanation pair. -/
theorem claim_C8_recovery_never_propagates :
    (∀ (jparse : Txt → Option JObj) (chunks : List Passage) (q e : Txt),
      (synthesizer_node (.error e) jparse chunks q).final_answer =
          (recoverFromError jparse e).1 ∧
        (synthesizer_node (.error e) jparse chunks q).explanation =
          (recoverFromError jparse e).2) ∧
    (∀ (jparse : Txt → Option JObj) (e : Txt),
      extractLMResponse e = none →
      recoverFromError jparse e = (sentinel_answer, sentinel_explanation)) ∧
    (∀ (jparse : Txt → Option JObj) (e raw : Txt),
      extractLMResponse e = some raw → jparse (typoFix raw) = none →
      recoverFromError jparse e = (sentinel_answer, sentinel_explanation)) ∧
    (∀ (jparse : Txt → Option JObj) (e raw : Txt) (data : JObj),
      extractLMResponse e = some raw → jparse (typoFix raw) = some data →
      recoverFromError jparse e =
        ((data.lookup "final_answer").getD sentinel_answer,
         (data.lookup "explanation").getD
           ((data.lookup "reasoning").getD sentinel_explanation))) ∧
    (extractLMResponse "ValueError: LM Response: \x7b\"explanicn\": \"ok\"\x7d".data =
        some "\x7b\"explanicn\": \"ok\"\x7d".data ∧
      typoFix "\x7b\"explanicn\": \"ok\"\x7d".data =
        "\x7b\"explanation\": \"ok\"\x7d".data) := by
  refine ⟨?_, recover_no_extract, recover_no_parse, recover_parsed, by decide, by decide⟩
  intro jp chunks q e
  exact ⟨rfl, rfl⟩

/-- Witness for claim C8: on an error text with no bracketed structure,
recovery yields the sentinel pair. -/
theorem claim_C8_witness :
    recoverFromError (fun _ => none) "timeout talking to model".data =
      (sentinel_answer, sentinel_explanation) :=
  claim_C8_recovery_never_propagates.2.1 (fun _ => none)
    "timeout talking to model".data (by decide)

/-! ### Retrieval (claim C7) -/

lemma mem_insertDesc (key : Nat → ℚ) (i : Nat) :
    ∀ (l : List Nat) (x : Nat), x ∈ insertDesc key i l ↔ x = i ∨ x ∈ l := by
  intro l
  induction l with
  | nil => intro x; simp [insertDesc]
  | cons j js ih =>
    intro x
    by_cases h : key j < key i
    · rw [insertDesc, if_pos h]
      simp only [List.mem_cons]
    · rw [insertDesc, if_neg h]
      simp only [List.mem_cons, ih]
      tauto

lemma insertDesc_pairwise (key : Nat → ℚ) (i : Nat) :
    ∀ l : List Nat, l.Pairwise (idxLexGT key) → (∀ j ∈ l, j < i) →
      (insertDesc key i l).Pairwise (idxLexGT key) := by
  intro l
  induction l with
  | nil => intro _ _; simp [insertDesc, List.pairwise_singleton]
  | cons j js ih =>
    intro hp hlt
    rcases List.pairwise_cons.1 hp with ⟨hj, hjs⟩
    by_cases h : key j < key i
    · rw [insertDesc, if_pos h]
      refine List.pairwise_cons.2 ⟨?_, hp⟩
      intro y hy
      rcases List.mem_cons.1 hy with rfl | hy'
      · exact Or.inl h
      · rcases hj y hy' with hlt' | ⟨heq, _⟩
        · exact Or.inl (hlt'.trans h)
        · exact Or.inl (heq ▸ h)
    · rw [insertDesc, if_neg h]
      refine List.pairwise_cons.2 ⟨?_, ih hjs (fun x hx => hlt x (List.mem_cons_of_mem j hx))⟩
      intro y hy
      rcases (mem_insertDesc key i (js) y).1 hy with rfl | hy'
      · rcases lt_or_eq_of_le (not_lt.1 h) with hlt' | heq
        · exact Or.inl hlt'
        · exact Or.inr ⟨heq.symm, hlt j (List.mem_cons_self j js)⟩
      · exact hj y hy'

lemma foldl_insertDesc_pairwise (key : Nat → ℚ) :
    ∀ (L : List Nat) (acc : List Nat), acc.Pairwise (idxLexGT key) →
      (∀ i ∈ L, ∀ j ∈ acc, j < i) → L.Pairwise (· < ·) →
      (L.foldl (fun a i => insertDesc key i a) acc).Pairwise (idxLexGT key) := by
  intro L
  induction L with
  | nil => intro acc h _ _; exact h
  | cons i L' ih =>
    intro acc hacc hlt hL
    rcases List.pairwise_cons.1 hL with ⟨hi, hL'⟩
    rw [List.foldl_cons]
    refine ih (insertDesc key i acc) ?_ ?_ hL'
    · exact insertDesc_pairwise key i acc hacc
        (fun j hj => hlt i (List.mem_cons_self i L') j hj)
    · intro i' hi' j hj
      rcases (mem_insertDesc key i acc j).1 hj with rfl | hj'
      · exact hi i' hi'
      · exact hlt i' (List.mem_cons_of_mem i hi') j hj'

lemma sortIdxDesc_pairwise (key : Nat → ℚ) (n : Nat) :
    (sortIdxDesc key n).Pairwise (idxLexGT key) := by
  refine foldl_insertDesc_pairwise key (List.range n) [] List.Pairwise.nil ?_
    (List.pairwise_lt_range n)
  intro i _ j hj
  cases hj

lemma topIdx_pairwise (get_scores : List Txt → List ℚ) (chunks : List Passage)
    (q : Txt) (k : Nat) :
    (topIdx get_scores chunks q k).Pairwise
      (idxLexGT (fun i => (boostedScores get_scores chunks q).getD i 0)) := by
  exact (sortIdxDesc_pairwise _ _).sublist (List.take_sublist _ _)

lemma search_eq_filterMap (get_scores : List Txt → List ℚ)
    (chunks : List Passage) (q : Txt) (k : Nat) :
    search (some get_scores) chunks q k =
      (topIdx get_scores chunks q k).filterMap
        (mkResult (boostedScores get_scores chunks q) chunks) := rfl

lemma search_length_le (get_scores : List Txt → List ℚ) (chunks : List Passage)
    (q : Txt) (k : Nat) : (search (some get_scores) chunks q k).length ≤ k := by
  rw [search_eq_filterMap]
  calc ((topIdx get_scores chunks q k).filterMap
          (mkResult (boostedScores get_scores chunks q) chunks)).length
      ≤ (topIdx get_scores chunks q k).length := List.length_filterMap_le _ _
    _ ≤ k := by
        rw [topIdx]
        exact List.length_take_le _ _

lemma search_mem_shape (get_scores : List Txt → List ℚ) (chunks : List Passage)
    (q : Txt) (k : Nat) (p : Passage) (hp : p ∈ search (some get_scores) chunks q k) :
    ∃ i ch, chunks[i]? = some ch ∧
      0 < (boostedScores get_scores chunks q).getD i 0 ∧
      p = { ch with score := some ((boostedScores get_scores chunks q).getD i 0) } := by
  rw [search_eq_filterMap] at hp
  rcases List.mem_filterMap.1 hp with ⟨i, _, hmk⟩
  rw [mkResult] at hmk
  by_cases hpos : 0 < (boostedScores get_scores chunks q).getD i 0
  · rw [if_pos hpos] at hmk
    rcases Option.map_eq_some'.1 hmk with ⟨ch, hch, hp'⟩
    exact ⟨i, ch, hch, hpos, hp'.symm⟩
  · rw [if_neg hpos] at hmk
    cases hmk

lemma search_pos_score (get_scores : List Txt → List ℚ) (chunks : List Passage)
    (q : Txt) (k : Nat) (p : Passage) (hp : p ∈ search (some get_scores) chunks q k) :
    ∃ sc : ℚ, p.score = some sc ∧ 0 < sc := by
  rcases search_mem_shape get_scores chunks q k p hp with ⟨i, ch, _, hpos, rfl⟩
  exact ⟨_, rfl, hpos⟩

/-- Claim C7: `search` returns at most `k` passages, exactly the stored
chunks at the selected indices copied with their boosted score attached, all
with strictly positive boosted score; the selected index list is ordered by
boosted score descending with the original chunk index as secondary
tie-break; and on an empty corpus no index is built and every query returns
the empty sequence. -/
theorem claim_C7_search_contract :
    (∀ (get_scores : List Txt → List ℚ) (chunks : List Passage) (q : Txt) (k : Nat),
      (search (some get_scores) chunks q k).length ≤ k) ∧
    (∀ (get_scores : List Txt → List ℚ) (chunks : List Passage) (q : Txt) (k : Nat),
      search (some get_scores) chunks q k =
        (topIdx get_scores chunks q k).filterMap
          (mkResult (boostedScores get_scores chunks q) chunks)) ∧
    (∀ (get_scores : List Txt → List ℚ) (chunks : List Passage) (q : Txt) (k : Nat),
      ∀ p ∈ search (some get_scores) chunks q k,
        ∃ i ch, chunks[i]? = some ch ∧
          0 < (boostedScores get_scores chunks q).getD i 0 ∧
          p = { ch with score := some ((boostedScores get_scores chunks q).getD i 0) }) ∧
    (∀ (get_scores : List Txt → List ℚ) (chunks : List Passage) (q : Txt) (k : Nat),
      (topIdx get_scores chunks q k).Pairwise
        (idxLexGT (fun i => (boostedScores get_scores chunks q).getD i 0))) ∧
    (∀ (bm25lib : List (List Txt) → List Txt → List ℚ) (q : Txt) (k : Nat),
      search (build_retriever bm25lib []).2 (build_retriever bm25lib []).1 q k = []) := by
  exact ⟨search_length_le, search_eq_filterMap, search_mem_shape, topIdx_pairwise,
    fun _ _ _ => rfl⟩

/-- Witness for claim C7 at a concrete one-chunk index whose single result
has a strictly positive boosted score. -/
theorem claim_C7_witness :
    ∃ i ch,
      ([⟨"kpi.md::chunk0".data, "t".data, "kpi.md".data, "kpi".data, none⟩] :
        List Passage)[i]? = some ch ∧
      0 < (boostedScores (fun _ => [1])
            [⟨"kpi.md::chunk0".data, "t".data, "kpi.md".data, "kpi".data, none⟩]
            "revenue".data).getD i 0 ∧
      (⟨"kpi.md::chunk0".data, "t".data, "kpi.md".data, "kpi".data, some 1⟩ : Passage) =
        { ch with
          score := some ((boostedScores (fun _ => [1])
            [⟨"kpi.md::chunk0".data, "t".data, "kpi.md".data, "kpi".data, none⟩]
            "revenue".data).getD i 0) } :=
  claim_C7_search_contract.2.2.1 (fun _ => [1])
    [⟨"kpi.md::chunk0".data, "t".data, "kpi.md".data, "kpi".data, none⟩]
    "revenue".data 3
    ⟨"kpi.md::chunk0".data, "t".data, "kpi.md".data, "kpi".data, some 1⟩
    (by decide)

/-! ### Heap-level frame property of `search` (claim C10) -/

lemma searchData_congr (b : List ℚ) (top refs : List Nat)
    (mem₁ mem₂ : Nat → Option Passage) (h : ∀ x ∈ refs, mem₁ x = mem₂ x) :
    searchData b top refs mem₁ = searchData b top refs mem₂ := by
  unfold searchData
  apply List.filterMap_congr
  intro i _
  cases hx : refs[i]? with
  | none => simp [hx]
  | some x =>
    have hmem := h x (List.getElem?_mem hx)
    simp [hx, hmem]

lemma searchAlloc_fold_invariant (b : List ℚ) (refs : List Nat) :
    ∀ (top : List Nat) (st : Store) (acc : List Nat),
      st.next ≤ (top.foldl (searchAllocStep b refs) (st, acc)).1.next ∧
      (∀ a, a < st.next →
        (top.foldl (searchAllocStep b refs) (st, acc)).1.mem a = st.mem a) ∧
      (∀ r ∈ (top.foldl (searchAllocStep b refs) (st, acc)).2,
        r ∈ acc ∨ (st.next ≤ r ∧
          r < (top.foldl (searchAllocStep b refs) (st, acc)).1.next)) := by
  intro top
  induction top with
  | nil =>
    intro st acc
    exact ⟨Nat.le_refl _, fun a _ => rfl, fun r hr => Or.inl hr⟩
  | cons i t ih =>
    intro st acc
    rw [List.foldl_cons]
    by_cases hpos : 0 < b.getD i 0
    · cases hch : (refs[i]?).bind st.mem with
      | none =>
        have hstep : searchAllocStep b refs (st, acc) i = (st, acc) := by
          rw [searchAllocStep, if_pos hpos]
          simp only [hch]
        rw [hstep]
        exact ih st acc
      | some ch =>
        have hstep : searchAllocStep b refs (st, acc) i =
            ({ mem := fun a => if a = st.next then
                  some { ch with score := some (b.getD i 0) } else st.mem a,
               next := st.next + 1 }, acc ++ [st.next]) := by
          rw [searchAllocStep, if_pos hpos]
          simp only [hch]
          rfl
        rw [hstep]
        set st1 : Store :=
          { mem := fun a => if a = st.next then
                some { ch with score := some (b.getD i 0) } else st.mem a,
            next := st.next + 1 } with hst1
        rcases ih st1 (acc ++ [st.next]) with ⟨h1, h2, h3⟩
        refine ⟨?_, ?_, ?_⟩
        · exact le_trans (Nat.le_succ _) h1
        · intro a ha
          rw [h2 a (by simp [hst1]; omega)]
          simp only [hst1]
          rw [if_neg (by omega)]
        · intro r hr
          rcases h3 r hr with hr' | ⟨hle, hlt⟩
          · rcases List.mem_append.1 hr' with hr'' | hr''
            · exact Or.inl hr''
            · have : r = st.next := List.mem_singleton.1 hr''
              subst this
              exact Or.inr ⟨Nat.le_refl _, lt_of_lt_of_le (Nat.lt_succ_self _) h1⟩
          · refine Or.inr ⟨?_, hlt⟩
            calc st.next ≤ st.next + 1 := Nat.le_succ _
              _ ≤ r := hle
    · have hstep : searchAllocStep b refs (st, acc) i = (st, acc) := by
        rw [searchAllocStep, if_neg hpos]
      rw [hstep]
      exact ih st acc

lemma searchAlloc_fold_data (b : List ℚ) (refs : List Nat) :
    ∀ (top : List Nat) (st : Store) (acc : List Nat),
      (∀ x ∈ refs, x < st.next) →
      (top.foldl (searchAllocStep b refs) (st, acc)).2.map
          (top.foldl (searchAllocStep b refs) (st, acc)).1.mem =
        acc.map (top.foldl (searchAllocStep b refs) (st, acc)).1.mem ++
          (searchData b top refs st.mem).map some := by
  intro top
  induction top with
  | nil =>
    intro st acc _
    simp [searchData]
  | cons i t ih =>
    intro st acc hwf
    rw [List.foldl_cons]
    have hdata : searchData b (i :: t) refs st.mem =
        (if 0 < b.getD i 0 then
          ((refs[i]?).bind st.mem).map
            (fun ch => { ch with score := some (b.getD i 0) })
        else none).toList ++ searchData b t refs st.mem := by
      rw [searchData, searchData, List.filterMap_cons]
      by_cases hpos : 0 < b.getD i 0
      · rw [if_pos hpos]
        cases hch : (refs[i]?).bind st.mem with
        | none => simp [hch]
        | some ch => simp [hch]
      · rw [if_neg hpos]
        simp
    by_cases hpos : 0 < b.getD i 0
    · cases hch : (refs[i]?).bind st.mem with
      | none =>
        have hstep : searchAllocStep b refs (st, acc) i = (st, acc) := by
          rw [searchAllocStep, if_pos hpos]
          simp only [hch]
        rw [hstep, hdata, if_pos hpos, hch]
        simpa using ih st acc hwf
      | some ch =>
        have hstep : searchAllocStep b refs (st, acc) i =
            ({ mem := fun a => if a = st.next then
                  some { ch with score := some (b.getD i 0) } else st.mem a,
               next := st.next + 1 }, acc ++ [st.next]) := by
          rw [searchAllocStep, if_pos hpos]
          simp only [hch]
          rfl
        rw [hstep]
        set st1 : Store :=
          { mem := fun a => if a = st.next then
                some { ch with score := some (b.getD i 0) } else st.mem a,
            next := st.next + 1 } with hst1
        have hwf1 : ∀ x ∈ refs, x < st1.next := by
          intro x hx
          have := hwf x hx
          simp only [hst1]
          omega
        have hmemeq : ∀ x ∈ refs, st1.mem x = st.mem x := by
          intro x hx
          have := hwf x hx
          simp only [hst1]
          rw [if_neg (by omega)]
        have ihx := ih st1 (acc ++ [st.next]) hwf1
        rw [ihx, hdata, if_pos hpos, hch]
        rw [searchData_congr b t refs st1.mem st.mem hmemeq] at *
        have hfr :=
          (searchAlloc_fold_invariant b refs t st1 (acc ++ [st.next])).2.1
        have hread :
            (t.foldl (searchAllocStep b refs) (st1, acc ++ [st.next])).1.mem st.next =
              some { ch with score := some (b.getD i 0) } := by
          have hlt : st.next < st1.next := by
            simp [hst1]
          rw [hfr st.next hlt]
          simp [hst1]
        rw [List.map_append]
        simp only [List.map_cons, List.map_nil, hread]
        rw [List.append_assoc]
        rfl
    · have hstep : searchAllocStep b refs (st, acc) i = (st, acc) := by
        rw [searchAllocStep, if_neg hpos]
      rw [hstep, hdata, if_neg hpos]
      simpa using ih st acc hwf

/-- Claim C10: the result loop of `search` leaves every stored chunk record
unchanged and returns only freshly allocated copies, so mutating a returned
record never alters the index, and two successive calls on the same index
read back equal chunk data. -/
theorem claim_C10_search_frame :
    (∀ (b : List ℚ) (top refs : List Nat) (st : Store) (a : Nat),
      a < st.next → (searchAlloc b top refs st).1.mem a = st.mem a) ∧
    (∀ (b : List ℚ) (top refs : List Nat) (st : Store),
      (∀ x ∈ refs, x < st.next) →
      ∀ r ∈ (searchAlloc b top refs st).2, ∀ (v : Passage), ∀ x ∈ refs,
        (storeWrite (searchAlloc b top refs st).1 r v).mem x = st.mem x) ∧
    (∀ (b : List ℚ) (top refs : List Nat) (st : Store),
      (∀ x ∈ refs, x < st.next) →
      (searchAlloc b top refs st).2.map (searchAlloc b top refs st).1.mem =
          (searchData b top refs st.mem).map some ∧
        (searchAlloc b top refs (searchAlloc b top refs st).1).2.map
            (searchAlloc b top refs (searchAlloc b top refs st).1).1.mem =
          (searchData b top refs st.mem).map some) := by
  have hframe : ∀ (b : List ℚ) (top refs : List Nat) (st : Store) (a : Nat),
      a < st.next → (searchAlloc b top refs st).1.mem a = st.mem a := by
    intro b top refs st a ha
    exact (searchAlloc_fold_invariant b refs top st []).2.1 a ha
  have hdata : ∀ (b : List ℚ) (top refs : List Nat) (st : Store),
      (∀ x ∈ refs, x < st.next) →
      (searchAlloc b top refs st).2.map (searchAlloc b top refs st).1.mem =
        (searchData b top refs st.mem).map some := by
    intro b top refs st hwf
    have := searchAlloc_fold_data b refs top st [] hwf
    simpa [searchAlloc] using this
  refine ⟨hframe, ?_, ?_⟩
  · intro b top refs st hwf r hr v x hx
    have hxlt : x < st.next := hwf x hx
    have hrge : st.next ≤ r := by
      rcases (searchAlloc_fold_invariant b refs top st []).2.2 r hr with h | ⟨h, -⟩
      · cases h
      · exact h
    rw [storeWrite]
    simp only
    rw [if_neg (by omega)]
    exact hframe b top refs st x hxlt
  · intro b top refs st hwf
    refine ⟨hdata b top refs st hwf, ?_⟩
    have hwf1 : ∀ x ∈ refs, x < (searchAlloc b top refs st).1.next := by
      intro x hx
      exact lt_of_lt_of_le (hwf x hx)
        (searchAlloc_fold_invariant b refs top st []).1
    have h2 := hdata b top refs (searchAlloc b top refs st).1 hwf1
    rw [h2, searchData_congr b top refs (searchAlloc b top refs st).1.mem st.mem]
    intro x hx
    exact hframe b top refs st x (hwf x hx)

/-- Witness for claim C10: with one stored chunk, search allocates reference
1 for its copy, and overwriting that copy leaves the stored chunk at
reference 0 unchanged. -/
theorem claim_C10_witness :
    (storeWrite
      (searchAlloc [1] [0] [0]
        ⟨fun a => if a = 0 then
            some ⟨"kpi.md::chunk0".data, "t".data, "kpi.md".data, "kpi".data, none⟩
          else none, 1⟩).1
      1 ⟨"x".data, "x".data, "x".data, "x".data, none⟩).mem 0 =
      (⟨fun a => if a = 0 then
          some ⟨"kpi.md::chunk0".data, "t".data, "kpi.md".data, "kpi".data, none⟩
        else none, 1⟩ : Store).mem 0 :=
  claim_C10_search_frame.2.1 [1] [0] [0]
    ⟨fun a => if a = 0 then
        some ⟨"kpi.md::chunk0".data, "t".data, "kpi.md".data, "kpi".data, none⟩
      else none, 1⟩
    (by decide) 1 (by decide) ⟨"x".data, "x".data, "x".data, "x".data, none⟩
    0 (by decide)

/-! ### Occurrence theory for `pyReplace` (claims C6 and C3)

An occurrence of a pattern in a text is an infix (`<:+:`).  The key facts
are a fixed-point lemma (texts without occurrences are unchanged) and a
no-occurrence lemma for the output of a replacement, from which idempotency
of the whole `sql_gen_node` pipeline follows. -/

lemma replFuel_nil (p r : Txt) (n : Nat) : replFuel p r n [] = [] := by
  cases n <;> rfl

lemma replFuel_cons_pos (p r : Txt) (n : Nat) (c : Char) (cs : Txt)
    (h : p ≠ [] ∧ p <+: (c :: cs)) :
    replFuel p r (n + 1) (c :: cs) =
      r ++ replFuel p r n ((c :: cs).drop p.length) := by
  rw [replFuel, if_pos h]

lemma replFuel_cons_neg (p r : Txt) (n : Nat) (c : Char) (cs : Txt)
    (h : ¬(p ≠ [] ∧ p <+: (c :: cs))) :
    replFuel p r (n + 1) (c :: cs) = c :: replFuel p r n cs := by
  rw [replFuel, if_neg h]

lemma not_infix_of_cons {q : Txt} {c : Char} {cs : Txt}
    (h : ¬ q <:+: (c :: cs)) : ¬ q <:+: cs :=
  fun hx => h (hx.trans (List.suffix_cons c cs).isInfix)

lemma infix_of_infix_drop {x s : Txt} {n : Nat} (h : x <:+: s.drop n) :
    x <:+: s :=
  h.trans (List.drop_suffix n s).isInfix

lemma replFuel_fixed_no_occ (p r : Txt) :
    ∀ (n : Nat) (s : Txt), s.length ≤ n → ¬ p <:+: s → replFuel p r n s = s := by
  intro n
  induction n with
  | zero =>
    intro s hlen _
    rw [List.length_eq_zero.1 (Nat.le_zero.1 hlen), replFuel_nil]
  | succ n ih =>
    intro s hlen hni
    match s with
    | [] => rw [replFuel_nil]
    | c :: cs =>
      have hnp : ¬(p ≠ [] ∧ p <+: (c :: cs)) := by
        rintro ⟨-, hpre⟩
        exact hni hpre.isInfix
      rw [replFuel_cons_neg p r n c cs hnp,
        ih cs (by simpa using Nat.lt_succ_iff.1 (Nat.lt_of_lt_of_le (Nat.lt_succ_self _) hlen)) (not_infix_of_cons hni)]

lemma pyReplace_fixed {p r s : Txt} (h : ¬ p <:+: s) :
    pyReplace p r s = s :=
  replFuel_fixed_no_occ p r s.length s (Nat.le_refl _) h

lemma prefixAppendCases {w : Txt} :
    ∀ {A B : Txt}, w <+: A ++ B → w <+: A ∨ ∃ w2, w = A ++ w2 ∧ w2 <+: B := by
  intro A
  induction A generalizing w with
  | nil =>
    intro B h
    exact Or.inr ⟨w, rfl, h⟩
  | cons a A' ih =>
    intro B h
    match w with
    | [] => exact Or.inl List.nil_prefix
    | x :: w' =>
      rw [List.cons_append] at h
      rcases List.cons_prefix_cons.1 h with ⟨rfl, h'⟩
      rcases ih h' with h'' | ⟨w2, rfl, hw2⟩
      · exact Or.inl (List.cons_prefix_cons.2 ⟨rfl, h''⟩)
      · exact Or.inr ⟨w2, rfl, hw2⟩

lemma infixAppendCases {q : Txt} :
    ∀ {A B : Txt}, q <:+: A ++ B →
      q <:+: A ∨ q <:+: B ∨
        ∃ q1 q2, q = q1 ++ q2 ∧ q1 ≠ [] ∧ q2 ≠ [] ∧ q1 <:+ A ∧ q2 <+: B := by
  intro A
  induction A generalizing q with
  | nil =>
    intro B h
    exact Or.inr (Or.inl h)
  | cons a A' ih =>
    intro B h
    rw [List.cons_append] at h
    rcases List.infix_cons_iff.1 h with hpre | hinf
    · -- q is a prefix of a :: (A' ++ B)
      match q with
      | [] => exact Or.inl List.nil_infix
      | x :: q' =>
        rcases List.cons_prefix_cons.1 hpre with ⟨rfl, h'⟩
        rcases prefixAppendCases h' with h'' | ⟨w2, rfl, hw2⟩
        · exact Or.inl (List.cons_prefix_cons.2 ⟨rfl, h''⟩).isInfix
        · by_cases hw2e : w2 = []
          · subst hw2e
            rw [List.append_nil]
            exact Or.inl (List.prefix_refl (x :: A')).isInfix
          · exact Or.inr (Or.inr ⟨x :: A', w2, rfl, List.cons_ne_nil _ _, hw2e,
              List.suffix_refl _, hw2⟩)
    · rcases ih hinf with h' | h' | ⟨q1, q2, rfl, h1, h2, h3, h4⟩
      · exact Or.inl (h'.trans (List.suffix_cons a A').isInfix)
      · exact Or.inr (Or.inl h')
      · exact Or.inr (Or.inr ⟨q1, q2, rfl, h1, h2, h3.trans (List.suffix_cons a A'), h4⟩)

lemma replFuel_noOcc (q p r : Txt) (hg : GoodPair q r) :
    ∀ (n : Nat) (s : Txt), s.length ≤ n → (¬ q <:+: s ∨ q = p) →
      (¬ q <:+: replFuel p r n s) ∧
      (∀ b ∈ q.tails, b ≠ [] → b <+: replFuel p r n s → b <+: s) := by
  obtain ⟨hqne, hrne, hqr, hC3, hC4⟩ := hg
  intro n
  induction n with
  | zero =>
    intro s hlen _
    have hs : s = [] := List.length_eq_zero.1 (Nat.le_zero.1 hlen)
    subst hs
    rw [replFuel_nil]
    constructor
    · intro h
      exact hqne (List.infix_nil.1 h)
    · intro b _ hbne hpre
      exact absurd (List.prefix_nil.1 hpre) hbne
  | succ n ih =>
    intro s hlen H
    cases s with
    | nil =>
      rw [replFuel_nil]
      constructor
      · intro h
        exact hqne (List.infix_nil.1 h)
      · intro b _ hbne hpre
        exact absurd (List.prefix_nil.1 hpre) hbne
    | cons c cs =>
      by_cases hm : p ≠ [] ∧ p <+: (c :: cs)
      · -- a match is consumed at the head
        rw [replFuel_cons_pos p r n c cs hm]
        have hp1 : 1 ≤ p.length := List.length_pos.2 hm.1
        have hlen' : ((c :: cs).drop p.length).length ≤ n := by
          rw [List.length_drop]
          simp only [List.length_cons] at hlen ⊢
          omega
        have H' : ¬ q <:+: (c :: cs).drop p.length ∨ q = p := by
          rcases H with h | h
          · exact Or.inl (fun hx => h (infix_of_infix_drop hx))
          · exact Or.inr h
        rcases ih ((c :: cs).drop p.length) hlen' H' with ⟨ih1, ih2⟩
        constructor
        · intro hq
          rcases infixAppendCases hq with h | h | ⟨q1, q2, hq12, hq1ne, hq2ne, hq1, hq2⟩
          · exact hqr h
          · exact ih1 h
          · exact hC3 q1 ((List.mem_tails q1 r).2 hq1) hq1ne
              (by rw [hq12]; exact List.prefix_append q1 q2)
        · intro b hb hbne hpre
          exfalso
          rcases prefixAppendCases hpre with h | ⟨b2, hb2, hb2'⟩
          · by_cases hbq : b = q
            · subst hbq
              exact hqr h.isInfix
            · exact (hC4 b hb hbne hbq).1 h
          · have hrb : r <+: b := ⟨b2, hb2.symm⟩
            by_cases hbq : b = q
            · subst hbq
              exact hC3 r ((List.mem_tails r r).2 (List.suffix_refl r)) hrne hrb
            · exact (hC4 b hb hbne hbq).2 hrb
      · -- the head character is emitted unchanged
        rw [replFuel_cons_neg p r n c cs hm]
        have hlen'' : cs.length ≤ n := by
          simp only [List.length_cons] at hlen
          omega
        have H' : ¬ q <:+: cs ∨ q = p := by
          rcases H with h | h
          · exact Or.inl (not_infix_of_cons h)
          · exact Or.inr h
        rcases ih cs hlen'' H' with ⟨ih1, ih2⟩
        have habs : ¬ q <+: (c :: cs) := by
          rcases H with h | h
          · exact fun hx => h hx.isInfix
          · subst h
            intro hx
            exact hm ⟨hqne, hx⟩
        constructor
        · intro hq
          rcases List.infix_cons_iff.1 hq with hq' | hq'
          · cases q with
            | nil => exact hqne rfl
            | cons qh qt =>
              rcases List.cons_prefix_cons.1 hq' with ⟨rfl, hqt⟩
              by_cases hqt0 : qt = []
              · subst hqt0
                exact habs (List.cons_prefix_cons.2 ⟨rfl, List.nil_prefix⟩)
              · have hqt_tail : qt ∈ (qh :: qt).tails :=
                  (List.mem_tails qt (qh :: qt)).2 (List.suffix_cons qh qt)
                exact habs (List.cons_prefix_cons.2 ⟨rfl, ih2 qt hqt_tail hqt0 hqt⟩)
          · exact ih1 hq'
        · intro b hb hbne hpre
          cases b with
          | nil => exact absurd rfl hbne
          | cons bh bt =>
            rcases List.cons_prefix_cons.1 hpre with ⟨rfl, hbt⟩
            by_cases hbt0 : bt = []
            · subst hbt0
              exact List.cons_prefix_cons.2 ⟨rfl, List.nil_prefix⟩
            · have hbsuff : (bh :: bt) <:+ q := (List.mem_tails _ q).1 hb
              have hbt_tail : bt ∈ q.tails :=
                (List.mem_tails bt q).2 ((List.suffix_cons bh bt).trans hbsuff)
              exact List.cons_prefix_cons.2 ⟨rfl, ih2 bt hbt_tail hbt0 hbt⟩

/-- Output of `pyReplace p r` never contains `p`, for compatible `(p, r)`. -/
lemma pyReplace_selfFree {p r : Txt} (hg : GoodPair p r) (s : Txt) :
    ¬ p <:+: pyReplace p r s :=
  (replFuel_noOcc p p r hg s.length s (Nat.le_refl _) (Or.inr rfl)).1

/-- `pyReplace p r` cannot create a new occurrence of a compatible pattern
`q`. -/
lemma pyReplace_presFree {q r : Txt} (hg : GoodPair q r) (p s : Txt)
    (h : ¬ q <:+: s) : ¬ q <:+: pyReplace p r s :=
  (replFuel_noOcc q p r hg s.length s (Nat.le_refl _) (Or.inl h)).1

lemma leadTicks_cons (c : Char) (cs : Txt) :
    leadTicks (c :: cs) = if c = '\x60' then leadTicks cs + 1 else 0 := rfl

lemma leadTicks_ge_two_of {l : Txt} (h : ('\x60' :: '\x60' :: []) <+: l) :
    2 ≤ leadTicks l := by
  obtain ⟨t, rfl⟩ := h
  simp [leadTicks]

lemma prefix_two_of_leadTicks : ∀ l : Txt, 2 ≤ leadTicks l →
    ('\x60' :: '\x60' :: []) <+: l := by
  intro l h
  match l with
  | [] => simp [leadTicks] at h
  | [c] =>
    by_cases hc : c = '\x60' <;> simp [leadTicks, hc] at h
  | c1 :: c2 :: t =>
    by_cases h1 : c1 = '\x60'
    · by_cases h2 : c2 = '\x60'
      · subst h1
        subst h2
        exact ⟨t, rfl⟩
      · rw [leadTicks_cons, if_pos h1, leadTicks_cons, if_neg h2] at h
        omega
    · rw [leadTicks_cons, if_neg h1] at h
      omega

lemma replFuel_ttt_free :
    ∀ (n : Nat) (s : Txt), s.length ≤ n →
      (¬ ttt <:+: replFuel ttt [] n s) ∧
      leadTicks (replFuel ttt [] n s) ≤ leadTicks s := by
  intro n
  induction n with
  | zero =>
    intro s hlen
    rw [List.length_eq_zero.1 (Nat.le_zero.1 hlen), replFuel_nil]
    exact ⟨fun h => absurd (List.infix_nil.1 h) (by decide), Nat.le_refl _⟩
  | succ n ih =>
    intro s hlen
    cases s with
    | nil =>
      rw [replFuel_nil]
      exact ⟨fun h => absurd (List.infix_nil.1 h) (by decide), Nat.le_refl _⟩
    | cons c cs =>
      by_cases hm : ttt ≠ [] ∧ ttt <+: (c :: cs)
      · rw [replFuel_cons_pos _ _ n c cs hm]
        obtain ⟨t, ht⟩ := hm.2
        have ht' : '\x60' :: '\x60' :: '\x60' :: t = c :: cs := ht
        injection ht' with h1 ht''
        subst h1
        subst ht''
        have hdrop : ('\x60' :: '\x60' :: '\x60' :: t).drop ttt.length = t := rfl
        rw [hdrop]
        have hlen' : t.length ≤ n := by
          simp only [List.length_cons] at hlen
          omega
        rcases ih t hlen' with ⟨ih1, ih2⟩
        constructor
        · simpa using ih1
        · simp only [List.nil_append, leadTicks_cons, if_pos rfl]
          calc leadTicks (replFuel ttt [] n t) ≤ leadTicks t := ih2
            _ ≤ leadTicks t + 1 + 1 + 1 := by omega
      · rw [replFuel_cons_neg _ _ n c cs hm]
        have hnp : ¬ ttt <+: (c :: cs) := fun hx => hm ⟨by decide, hx⟩
        have hlen'' : cs.length ≤ n := by
          simp only [List.length_cons] at hlen
          omega
        rcases ih cs hlen'' with ⟨ih1, ih2⟩
        constructor
        · intro hq
          rcases List.infix_cons_iff.1 hq with hq' | hq'
          · have httt : ttt = '\x60' :: '\x60' :: '\x60' :: [] := rfl
            rw [httt] at hq'
            rcases List.cons_prefix_cons.1 hq' with ⟨hc, h2t⟩
            have hX2 : 2 ≤ leadTicks (replFuel ttt [] n cs) := leadTicks_ge_two_of h2t
            have hcs2 : ¬ ('\x60' :: '\x60' :: []) <+: cs := by
              intro hx
              refine hnp ?_
              rw [httt, ← hc]
              exact List.cons_prefix_cons.2 ⟨rfl, hx⟩
            have hcs1 : leadTicks cs ≤ 1 := by
              by_contra hgt
              exact hcs2 (prefix_two_of_leadTicks cs (by omega))
            omega
          · exact ih1 hq'
        · rw [leadTicks_cons, leadTicks_cons]
          by_cases hc : c = '\x60'
          · rw [if_pos hc, if_pos hc]
            omega
          · rw [if_neg hc, if_neg hc]

/-- The output of the `"```"`-removal pass never contains three consecutive
backticks. -/
lemma pyReplace_ttt_free (s : Txt) : ¬ ttt <:+: pyReplace ttt [] s :=
  (replFuel_ttt_free s.length s (Nat.le_refl _)).1

lemma pyStrip_pre (s : Txt) : pyStrip s <+: s.dropWhile isPySpace := by
  have hx : (s.dropWhile isPySpace).reverse.dropWhile isPySpace <:+
      (s.dropWhile isPySpace).reverse := List.dropWhile_suffix _
  have := List.reverse_prefix.2 hx
  rwa [List.reverse_reverse] at this

lemma pyStrip_sub (s : Txt) : pyStrip s <:+: s :=
  (pyStrip_pre s).isInfix.trans (List.dropWhile_suffix isPySpace).isInfix

lemma headOkB_dropWhile (l : Txt) : headOkB (l.dropWhile isPySpace) = true := by
  induction l with
  | nil => rfl
  | cons c cs ih =>
    by_cases h : isPySpace c
    · rw [List.dropWhile_cons, if_pos h]
      exact ih
    · rw [List.dropWhile_cons, if_neg h]
      simpa [headOkB] using h

lemma headOkB_mono_pre {u l : Txt} (h : u <+: l) (hl : headOkB l = true) :
    headOkB u = true := by
  cases u with
  | nil => rfl
  | cons uh ut =>
    obtain ⟨t, ht⟩ := h
    rw [← ht] at hl
    simpa [headOkB] using hl

lemma pyStrip_headOk (s : Txt) : headOkB (pyStrip s) = true :=
  headOkB_mono_pre (pyStrip_pre s) (headOkB_dropWhile s)

lemma pyStrip_lastOk (s : Txt) : lastOkB (pyStrip s) = true := by
  show headOkB (((s.dropWhile isPySpace).reverse.dropWhile isPySpace).reverse).reverse = true
  rw [List.reverse_reverse]
  exact headOkB_dropWhile _

lemma dropWhile_eq_self_of_headOk {l : Txt} (h : headOkB l = true) :
    l.dropWhile isPySpace = l := by
  cases l with
  | nil => rfl
  | cons c cs =>
    have hc : ¬ isPySpace c = true := by
      simpa [headOkB] using h
    rw [List.dropWhile_cons, if_neg hc]

lemma pyStrip_eq_self {l : Txt} (h1 : headOkB l = true) (h2 : lastOkB l = true) :
    pyStrip l = l := by
  show ((l.dropWhile isPySpace).reverse.dropWhile isPySpace).reverse = l
  rw [dropWhile_eq_self_of_headOk h1, dropWhile_eq_self_of_headOk h2,
    List.reverse_reverse]

lemma replFuel_ne_nil (p r : Txt) (hr : r ≠ []) (n : Nat) (s : Txt)
    (hs : s ≠ []) : replFuel p r n s ≠ [] := by
  cases n with
  | zero =>
    cases s with
    | nil => exact absurd rfl hs
    | cons c cs => exact hs
  | succ n =>
    cases s with
    | nil => exact absurd rfl hs
    | cons c cs =>
      by_cases hm : p ≠ [] ∧ p <+: (c :: cs)
      · rw [replFuel_cons_pos p r n c cs hm]
        intro h
        exact hr (List.append_eq_nil.1 h).1
      · rw [replFuel_cons_neg p r n c cs hm]
        exact List.cons_ne_nil c _

lemma headOkB_append_left (a b : Txt) (ha : a ≠ []) :
    headOkB (a ++ b) = headOkB a := by
  cases a with
  | nil => exact absurd rfl ha
  | cons x xs => rfl

lemma lastOkB_append_right (a b : Txt) (hb : b ≠ []) :
    lastOkB (a ++ b) = lastOkB b := by
  show headOkB (a ++ b).reverse = headOkB b.reverse
  rw [List.reverse_append]
  exact headOkB_append_left b.reverse a.reverse (by simpa using hb)

lemma lastOkB_of_suffix {u l : Txt} (h : u <:+ l) (hl : lastOkB l = true) :
    lastOkB u = true := by
  by_cases hu : u = []
  · subst hu
    rfl
  · obtain ⟨w, rfl⟩ := h
    rwa [lastOkB_append_right w u hu] at hl

lemma replFuel_headOk (p r : Txt) (hrne : r ≠ []) (hrh : headOkB r = true)
    (n : Nat) (s : Txt) (hs : headOkB s = true) :
    headOkB (replFuel p r n s) = true := by
  cases n with
  | zero =>
    cases s with
    | nil => rfl
    | cons c cs => exact hs
  | succ n =>
    cases s with
    | nil => rfl
    | cons c cs =>
      by_cases hm : p ≠ [] ∧ p <+: (c :: cs)
      · rw [replFuel_cons_pos p r n c cs hm]
        cases r with
        | nil => exact absurd rfl hrne
        | cons rh rt => exact hrh
      · rw [replFuel_cons_neg p r n c cs hm]
        exact hs

lemma replFuel_lastOk (p r : Txt) (hrne : r ≠ []) (hrl : lastOkB r = true) :
    ∀ (n : Nat) (s : Txt), s.length ≤ n → lastOkB s = true →
      lastOkB (replFuel p r n s) = true := by
  intro n
  induction n with
  | zero =>
    intro s hlen _
    rw [List.length_eq_zero.1 (Nat.le_zero.1 hlen), replFuel_nil]
    rfl
  | succ n ih =>
    intro s hlen hs
    cases s with
    | nil => rw [replFuel_nil]; rfl
    | cons c cs =>
      by_cases hm : p ≠ [] ∧ p <+: (c :: cs)
      · rw [replFuel_cons_pos p r n c cs hm]
        by_cases hs' : (c :: cs).drop p.length = []
        · rw [hs', replFuel_nil, List.append_nil]
          exact hrl
        · have hX : replFuel p r n ((c :: cs).drop p.length) ≠ [] :=
            replFuel_ne_nil p r hrne n _ hs'
          rw [lastOkB_append_right r _ hX]
          refine ih _ ?_ (lastOkB_of_suffix (List.drop_suffix _ _) hs)
          rw [List.length_drop]
          have hp1 : 1 ≤ p.length := List.length_pos.2 hm.1
          simp only [List.length_cons] at hlen ⊢
          omega
      · rw [replFuel_cons_neg p r n c cs hm]
        by_cases hcs : cs = []
        · subst hcs
          rw [replFuel_nil]
          exact hs
        · have hX : replFuel p r n cs ≠ [] := replFuel_ne_nil p r hrne n cs hcs
          rw [show c :: replFuel p r n cs = [c] ++ replFuel p r n cs from rfl,
            lastOkB_append_right [c] _ hX]
          refine ih cs ?_ (lastOkB_of_suffix (List.suffix_cons c cs) hs)
          simp only [List.length_cons] at hlen
          omega

lemma pyReplace_headOk (p r : Txt) (hrne : r ≠ []) (hrh : headOkB r = true)
    (s : Txt) (hs : headOkB s = true) : headOkB (pyReplace p r s) = true :=
  replFuel_headOk p r hrne hrh s.length s hs

lemma pyReplace_lastOk (p r : Txt) (hrne : r ≠ []) (hrl : lastOkB r = true)
    (s : Txt) (hs : lastOkB s = true) : lastOkB (pyReplace p r s) = true :=
  replFuel_lastOk p r hrne hrl s.length s (Nat.le_refl _) hs

/-! ### No malformed token survives the `sql_gen_node` pipeline -/

lemma cleanSql_tickFree (s : Txt) : ¬ "```".data <:+: cleanSqlQuery s := by
  have httt : "```".data = ttt := by decide
  rw [httt]
  have h0 : ¬ ttt <:+: pyReplace ttt [] (pyReplace "```sql".data [] s) :=
    pyReplace_ttt_free _
  have h1 : ¬ ttt <:+:
      pyStrip (pyReplace ttt [] (pyReplace "```sql".data [] s)) :=
    fun hx => h0 (hx.trans (pyStrip_sub _))
  have h2 := pyReplace_presFree (q := ttt) (r := "BETWEEN".data) (by decide)
    "BETWE0N".data _ h1
  have h3 := pyReplace_presFree (q := ttt) (r := "order_details".data) (by decide)
    "OrderDetails".data _ h2
  have h4 := pyReplace_presFree (q := ttt) (r := "order_details".data) (by decide)
    "\"Order Details\"".data _ h3
  have h5 := pyReplace_presFree (q := ttt) (r := "orders".data) (by decide)
    "Orders".data _ h4
  have h6 := pyReplace_presFree (q := ttt) (r := "products".data) (by decide)
    "Products".data _ h5
  have h7 := pyReplace_presFree (q := ttt) (r := "categories".data) (by decide)
    "Categories".data _ h6
  show ¬ ttt <:+: cleanSqlQuery s
  have hq : cleanSqlQuery s =
      pyReplace "Categories".data "categories".data
        (pyReplace "Products".data "products".data
          (pyReplace "Orders".data "orders".data
            (pyReplace "\"Order Details\"".data "order_details".data
              (pyReplace "OrderDetails".data "order_details".data
                (pyReplace "BETWE0N".data "BETWEEN".data
                  (pyStrip
                    (pyReplace ttt []
                      (pyReplace "```sql".data [] s)))))))) := by
    rw [cleanSqlQuery, httt]
  rw [hq]
  exact h7

lemma cleanSql_fenceSqlFree (s : Txt) : ¬ "```sql".data <:+: cleanSqlQuery s := by
  intro h
  exact cleanSql_tickFree s
    ((show "```".data <+: "```sql".data by decide).isInfix.trans h)

lemma cleanSql_BFree (s : Txt) : ¬ "BETWE0N".data <:+: cleanSqlQuery s := by
  have h1 : ¬ "BETWE0N".data <:+:
      pyReplace "BETWE0N".data "BETWEEN".data
        (pyStrip (pyReplace "```".data [] (pyReplace "```sql".data [] s))) :=
    pyReplace_selfFree (by decide) _
  have h2 := pyReplace_presFree (q := "BETWE0N".data) (r := "order_details".data)
    (by decide) "OrderDetails".data _ h1
  have h3 := pyReplace_presFree (q := "BETWE0N".data) (r := "order_details".data)
    (by decide) "\"Order Details\"".data _ h2
  have h4 := pyReplace_presFree (q := "BETWE0N".data) (r := "orders".data)
    (by decide) "Orders".data _ h3
  have h5 := pyReplace_presFree (q := "BETWE0N".data) (r := "products".data)
    (by decide) "Products".data _ h4
  exact pyReplace_presFree (q := "BETWE0N".data) (r := "categories".data)
    (by decide) "Categories".data _ h5

lemma cleanSql_ODFree (s : Txt) : ¬ "OrderDetails".data <:+: cleanSqlQuery s := by
  have h1 : ¬ "OrderDetails".data <:+:
      pyReplace "OrderDetails".data "order_details".data
        (pyReplace "BETWE0N".data "BETWEEN".data
          (pyStrip (pyReplace "```".data [] (pyReplace "```sql".data [] s)))) :=
    pyReplace_selfFree (by decide) _
  have h2 := pyReplace_presFree (q := "OrderDetails".data)
    (r := "order_details".data) (by decide) "\"Order Details\"".data _ h1
  have h3 := pyReplace_presFree (q := "OrderDetails".data) (r := "orders".data)
    (by decide) "Orders".data _ h2
  have h4 := pyReplace_presFree (q := "OrderDetails".data) (r := "products".data)
    (by decide) "Products".data _ h3
  exact pyReplace_presFree (q := "OrderDetails".data) (r := "categories".data)
    (by decide) "Categories".data _ h4

lemma cleanSql_QODFree (s : Txt) :
    ¬ "\"Order Details\"".data <:+: cleanSqlQuery s := by
  have h1 : ¬ "\"Order Details\"".data <:+:
      pyReplace "\"Order Details\"".data "order_details".data
        (pyReplace "OrderDetails".data "order_details".data
          (pyReplace "BETWE0N".data "BETWEEN".data
            (pyStrip (pyReplace "```".data [] (pyReplace "```sql".data [] s))))) :=
    pyReplace_selfFree (by decide) _
  have h2 := pyReplace_presFree (q := "\"Order Details\"".data)
    (r := "orders".data) (by decide) "Orders".data _ h1
  have h3 := pyReplace_presFree (q := "\"Order Details\"".data)
    (r := "products".data) (by decide) "Products".data _ h2
  exact pyReplace_presFree (q := "\"Order Details\"".data)
    (r := "categories".data) (by decide) "Categories".data _ h3

lemma cleanSql_OrdersFree (s : Txt) : ¬ "Orders".data <:+: cleanSqlQuery s := by
  have h1 : ¬ "Orders".data <:+:
      pyReplace "Orders".data "orders".data
        (pyReplace "\"Order Details\"".data "order_details".data
          (pyReplace "OrderDetails".data "order_details".data
            (pyReplace "BETWE0N".data "BETWEEN".data
              (pyStrip (pyReplace "```".data []
                (pyReplace "```sql".data [] s)))))) :=
    pyReplace_selfFree (by decide) _
  have h2 := pyReplace_presFree (q := "Orders".data) (r := "products".data)
    (by decide) "Products".data _ h1
  exact pyReplace_presFree (q := "Orders".data) (r := "categories".data)
    (by decide) "Categories".data _ h2

lemma cleanSql_ProductsFree (s : Txt) :
    ¬ "Products".data <:+: cleanSqlQuery s := by
  have h1 : ¬ "Products".data <:+:
      pyReplace "Products".data "products".data
        (pyReplace "Orders".data "orders".data
          (pyReplace "\"Order Details\"".data "order_details".data
            (pyReplace "OrderDetails".data "order_details".data
              (pyReplace "BETWE0N".data "BETWEEN".data
                (pyStrip (pyReplace "```".data []
                  (pyReplace "```sql".data [] s))))))) :=
    pyReplace_selfFree (by decide) _
  exact pyReplace_presFree (q := "Products".data) (r := "categories".data)
    (by decide) "Categories".data _ h1

lemma cleanSql_CategoriesFree (s : Txt) :
    ¬ "Categories".data <:+: cleanSqlQuery s :=
  pyReplace_selfFree (by decide) _

lemma cleanSql_headOk (s : Txt) : headOkB (cleanSqlQuery s) = true := by
  have h0 : headOkB
      (pyStrip (pyReplace "```".data [] (pyReplace "```sql".data [] s))) = true :=
    pyStrip_headOk _
  have h1 := pyReplace_headOk "BETWE0N".data "BETWEEN".data (by decide)
    (by decide) _ h0
  have h2 := pyReplace_headOk "OrderDetails".data "order_details".data
    (by decide) (by decide) _ h1
  have h3 := pyReplace_headOk "\"Order Details\"".data "order_details".data
    (by decide) (by decide) _ h2
  have h4 := pyReplace_headOk "Orders".data "orders".data (by decide)
    (by decide) _ h3
  have h5 := pyReplace_headOk "Products".data "products".data (by decide)
    (by decide) _ h4
  exact pyReplace_headOk "Categories".data "categories".data (by decide)
    (by decide) _ h5

lemma cleanSql_lastOk (s : Txt) : lastOkB (cleanSqlQuery s) = true := by
  have h0 : lastOkB
      (pyStrip (pyReplace "```".data [] (pyReplace "```sql".data [] s))) = true :=
    pyStrip_lastOk _
  have h1 := pyReplace_lastOk "BETWE0N".data "BETWEEN".data (by decide)
    (by decide) _ h0
  have h2 := pyReplace_lastOk "OrderDetails".data "order_details".data
    (by decide) (by decide) _ h1
  have h3 := pyReplace_lastOk "\"Order Details\"".data "order_details".data
    (by decide) (by decide) _ h2
  have h4 := pyReplace_lastOk "Orders".data "orders".data (by decide)
    (by decide) _ h3
  have h5 := pyReplace_lastOk "Products".data "products".data (by decide)
    (by decide) _ h4
  exact pyReplace_lastOk "Categories".data "categories".data (by decide)
    (by decide) _ h5

/-- Any text free of fences, surrounding whitespace and malformed tokens is a
fixed point of the whole pipeline. -/
lemma cleanSqlQuery_eq_self (t : Txt)
    (hf : ¬ "```sql".data <:+: t) (ht : ¬ "```".data <:+: t)
    (hh : headOkB t = true) (hl : lastOkB t = true)
    (h1 : ¬ "BETWE0N".data <:+: t) (h2 : ¬ "OrderDetails".data <:+: t)
    (h3 : ¬ "\"Order Details\"".data <:+: t) (h4 : ¬ "Orders".data <:+: t)
    (h5 : ¬ "Products".data <:+: t) (h6 : ¬ "Categories".data <:+: t) :
    cleanSqlQuery t = t := by
  rw [cleanSqlQuery, pyReplace_fixed hf, pyReplace_fixed ht,
    pyStrip_eq_self hh hl, pyReplace_fixed h1, pyReplace_fixed h2,
    pyReplace_fixed h3, pyReplace_fixed h4,
    pyReplace_fixed h5, pyReplace_fixed h6]

lemma cleanSqlQuery_idem (s : Txt) :
    cleanSqlQuery (cleanSqlQuery s) = cleanSqlQuery s :=
  cleanSqlQuery_eq_self (cleanSqlQuery s) (cleanSql_fenceSqlFree s)
    (cleanSql_tickFree s) (cleanSql_headOk s) (cleanSql_lastOk s)
    (cleanSql_BFree s) (cleanSql_ODFree s) (cleanSql_QODFree s)
    (cleanSql_OrdersFree s) (cleanSql_ProductsFree s) (cleanSql_CategoriesFree s)

/-- Claim C6: the deterministic repair step rewrites the known malformed
tokens to their canonical forms — no occurrence of the misspelled keyword or
of the quoted multi-word table reference survives in any pipeline output, and
a concrete malformed query is rewritten to its canonical form — and the full
fence-strip-plus-repair sequence is idempotent: reapplying it to an
already-repaired text is a no-op, for every input. -/
theorem claim_C6_repairs_idempotent :
    (∀ s : Txt, cleanSqlQuery (cleanSqlQuery s) = cleanSqlQuery s) ∧
    (∀ s : Txt, ¬ "BETWE0N".data <:+: cleanSqlQuery s ∧
      ¬ "\"Order Details\"".data <:+: cleanSqlQuery s) ∧
    (cleanSqlQuery
        "```sql\nSELECT * FROM \"Order Details\" WHERE UnitPrice BETWE0N 1 AND 5\n```".data =
      "SELECT * FROM order_details WHERE UnitPrice BETWEEN 1 AND 5".data) :=
  ⟨cleanSqlQuery_idem, fun s => ⟨cleanSql_BFree s, cleanSql_QODFree s⟩, by decide⟩

/-- Counterexample for claim C3: the post-processing of `sql_gen_node` does
not strip comments — a single-line comment and a block comment survive the
pipeline verbatim (only fences and surrounding whitespace are removed before
the repair table is applied). -/
theorem claim_C3_counterexample :
    cleanSqlQuery "```sql\nSELECT 1 -- strip me\n```".data =
        "SELECT 1 -- strip me".data ∧
      "-- strip me".data <:+: cleanSqlQuery "```sql\nSELECT 1 -- strip me\n```".data ∧
      cleanSqlQuery "SELECT 1 /* block */".data = "SELECT 1 /* block */".data := by
  refine ⟨by decide, ?_, by decide⟩
  rw [show cleanSqlQuery "```sql\nSELECT 1 -- strip me\n```".data =
      "SELECT 1 -- strip me".data from by decide]
  decide

/-- Amended claim C3: the deterministic post-processing applies, in this
fixed order: (1) strip the code-fence delimiters and trim surrounding
whitespace, (2) apply the fixed repair table (keyword-misspelling fix and
logical-to-physical table-name aliasing) — with no comment-stripping step, so
comments pass through unchanged. -/
theorem claim_C3_postprocessing_order :
    (∀ s : Txt, cleanSqlQuery s = applyRepairTable (pyStrip (stripCodeFences s))) ∧
    (cleanSqlQuery "  ```sql SELECT 1``` ".data = "SELECT 1".data) ∧
    (cleanSqlQuery "SELECT 1 -- note".data = "SELECT 1 -- note".data) := by
  refine ⟨?_, by decide, by decide⟩
  intro s
  rw [cleanSqlQuery, stripCodeFences, applyRepairTable, repairTable]
  simp only [List.foldl_cons, List.foldl_nil]

end RetailAgent
